import Mathlib

/-!
Verification of the request-routing core of ESPAsyncWebServer
(src/ThreadSafeList.h and src/WebServer.cpp), as a shallow embedding.

The mutex acquired by every ThreadSafeList operation and the recursive
locks of AsyncWebServer guard a plain std::list respectively two member
lists; the sequential semantics of each operation is the semantics of
the underlying list operation, which is what is embedded here.
-/

namespace ESPAsync

/-! ## ts::ThreadSafeList (src/ThreadSafeList.h)

The data member is `std::list<T> data_`; each operation locks, acts on
`data_`, and unlocks.  `pop_front`, `pop_back`, `front`, `back` and
`find_if` return `std::unique_ptr<T>` which is `nullptr` on the empty
or not-found case: embedded as `Option T`. -/

structure ThreadSafeList (T : Type) where
  data_ : List T
deriving Repr, DecidableEq

namespace ThreadSafeList

variable {T : Type}

/-- Embeds `push_back`: `data_.push_back(std::move(value))`. -/
def push_back (l : ThreadSafeList T) (value : T) : ThreadSafeList T :=
  ⟨l.data_ ++ [value]⟩

/-- Embeds `push_front`: `data_.push_front(std::move(value))`. -/
def push_front (l : ThreadSafeList T) (value : T) : ThreadSafeList T :=
  ⟨value :: l.data_⟩

/-- Embeds `pop_front`: if empty return nullptr; otherwise copy out front and
remove it.  The returned pointer is the first component. -/
def pop_front (l : ThreadSafeList T) : Option T × ThreadSafeList T :=
  match l.data_ with
  | [] => (none, l)
  | x :: xs => (some x, ⟨xs⟩)

/-- Embeds `pop_back`: if empty return nullptr; otherwise copy out back and
remove it. -/
def pop_back (l : ThreadSafeList T) : Option T × ThreadSafeList T :=
  match l.data_.getLast? with
  | none => (none, l)
  | some x => (some x, ⟨l.data_.dropLast⟩)

/-- Embeds `front`: copy of the first element, nullptr when empty; `const`, so
the list is not changed. -/
def front (l : ThreadSafeList T) : Option T :=
  l.data_.head?

/-- Embeds `back`: copy of the last element, nullptr when empty; `const`. -/
def back (l : ThreadSafeList T) : Option T :=
  l.data_.getLast?

/-- Embeds `find_if`: `std::find_if` over `data_`, copy of the first element
satisfying the predicate, nullptr otherwise; `const`. -/
def find_if (l : ThreadSafeList T) (predicate : T → Bool) : Option T :=
  l.data_.find? predicate

/-- Embeds `remove_if`: `data_.remove_if(predicate)` removes every element
satisfying the predicate, keeping the rest in order. -/
def remove_if (l : ThreadSafeList T) (predicate : T → Bool) : ThreadSafeList T :=
  ⟨l.data_.filter (fun x => !(predicate x))⟩

/-- Embeds `erase`: `data_.remove(value)` — removes all elements that compare
equal to `value` (requires `operator==` on T). -/
def erase [DecidableEq T] (l : ThreadSafeList T) (value : T) : ThreadSafeList T :=
  ⟨l.data_.filter (fun x => !(x = value : Bool))⟩

/-- The body of `erase_first`: `std::find` for the first element equal to
`value`, then `data_.erase(it)` at that position when found. -/
def eraseFirstAux [DecidableEq T] (value : T) : List T → List T
  | [] => []
  | x :: xs => if x = value then xs else x :: eraseFirstAux value xs

/-- Embeds `erase_first`: removes only the first element equal to `value`. -/
def erase_first [DecidableEq T] (l : ThreadSafeList T) (value : T) : ThreadSafeList T :=
  ⟨eraseFirstAux value l.data_⟩

/-- Embeds `erase_if`: in-place loop erasing each element satisfying the
predicate (same result as `remove_if`). -/
def erase_if (l : ThreadSafeList T) (predicate : T → Bool) : ThreadSafeList T :=
  ⟨l.data_.filter (fun x => !(predicate x))⟩

/-- Embeds `clear`: `data_.clear()`. -/
def clear (_ : ThreadSafeList T) : ThreadSafeList T :=
  ⟨[]⟩

/-- Embeds `size`: `data_.size()`. -/
def size (l : ThreadSafeList T) : Nat :=
  l.data_.length

/-- Embeds `empty`: `data_.empty()`. -/
def empty (l : ThreadSafeList T) : Bool :=
  l.data_.isEmpty

end ThreadSafeList

/-! ## Reference double-ended sequence (for the refinement claim)

Modelled from the spec: "a reference double-ended sequence with the
same operation sequence (queue/stack equivalence law)".  Implemented
independently of `ThreadSafeList` as a two-list deque; the sequence it
represents is `fr ++ bk.reverse`. -/

structure RefDeque (T : Type) where
  fr : List T
  bk : List T
deriving Repr, DecidableEq

namespace RefDeque

variable {T : Type}

/-- Abstraction: the sequence a `RefDeque` represents. -/
def seq (d : RefDeque T) : List T :=
  d.fr ++ d.bk.reverse

def pushFront (d : RefDeque T) (v : T) : RefDeque T :=
  ⟨v :: d.fr, d.bk⟩

def pushBack (d : RefDeque T) (v : T) : RefDeque T :=
  ⟨d.fr, v :: d.bk⟩

def popFront (d : RefDeque T) : Option T × RefDeque T :=
  match d.fr with
  | x :: xs => (some x, ⟨xs, d.bk⟩)
  | [] =>
    match d.bk.reverse with
    | [] => (none, d)
    | x :: xs => (some x, ⟨xs, []⟩)

def popBack (d : RefDeque T) : Option T × RefDeque T :=
  match d.bk with
  | x :: xs => (some x, ⟨d.fr, xs⟩)
  | [] =>
    match d.fr.getLast? with
    | none => (none, d)
    | some x => (some x, ⟨d.fr.dropLast, []⟩)

end RefDeque

/-! ### Operation sequences over both structures -/

inductive DeqOp (T : Type) where
  | pushF (v : T)
  | pushB (v : T)
  | popF
  | popB
deriving Repr, DecidableEq

/-- Run a sequence of deque operations on a `ThreadSafeList`, recording
the value (or absence) every pop returns. -/
def runTS {T : Type} : List (DeqOp T) → ThreadSafeList T → List (Option T) × ThreadSafeList T
  | [], l => ([], l)
  | DeqOp.pushF v :: ops, l => runTS ops (l.push_front v)
  | DeqOp.pushB v :: ops, l => runTS ops (l.push_back v)
  | DeqOp.popF :: ops, l =>
    let r := l.pop_front
    let rest := runTS ops r.2
    (r.1 :: rest.1, rest.2)
  | DeqOp.popB :: ops, l =>
    let r := l.pop_back
    let rest := runTS ops r.2
    (r.1 :: rest.1, rest.2)

/-- Run the same operations on the reference deque. -/
def runRef {T : Type} : List (DeqOp T) → RefDeque T → List (Option T) × RefDeque T
  | [], d => ([], d)
  | DeqOp.pushF v :: ops, d => runRef ops (d.pushFront v)
  | DeqOp.pushB v :: ops, d => runRef ops (d.pushBack v)
  | DeqOp.popF :: ops, d =>
    let r := d.popFront
    let rest := runRef ops r.2
    (r.1 :: rest.1, rest.2)
  | DeqOp.popB :: ops, d =>
    let r := d.popBack
    let rest := runRef ops r.2
    (r.1 :: rest.1, rest.2)

/-! ## AsyncWebServer (src/WebServer.cpp)

Heap object identity (C++ pointer values) is embedded as a `Nat` field
`id`; two distinct heap objects have distinct ids.  Strings are Lean
`String`. -/

/-- Modelled from the spec: the request object of the transport layer
(class AsyncWebServerRequest is not under src/).  Per the spec it is a
"mutable metadata object with a URL field and a query-parameter map
that the dispatch phase may rewrite in place, plus a single
handler-reference field".  `_handlerLog` records every `setHandler`
assignment in order (the source field holds only the last one), so
that the number of assignments a dispatch performs is statable. -/
structure AsyncWebServerRequest where
  _url : String
  _params : List (String × String)
  _handlerLog : List Nat
deriving Repr, DecidableEq

namespace AsyncWebServerRequest

/-- Modelled from the spec: lookup in the request parameter map. -/
def getParam (ps : List (String × String)) (k : String) : Option String :=
  (ps.find? (fun kv => kv.1 = k)).map (fun kv => kv.2)

/-- Modelled from the spec: write one key into the parameter map,
overriding the value when the key is present, appending otherwise. -/
def setParam (ps : List (String × String)) (k v : String) : List (String × String) :=
  if ps.any (fun kv => kv.1 = k) then
    ps.map (fun kv => if kv.1 = k then (k, v) else kv)
  else
    ps ++ [(k, v)]

/-- Modelled from the spec: `AsyncWebServerRequest::_addGetParams` is
not under src/; per the spec, rewrite resolution "merges its
extractedParams into the parameter map of the request" (merge, not replace;
a later write to the same key overrides the earlier one). -/
def _addGetParams (r : AsyncWebServerRequest) (newPs : List (String × String)) : AsyncWebServerRequest :=
  { r with _params := newPs.foldl (fun acc kv => setParam acc kv.1 kv.2) r._params }

/-- Modelled from the spec: `setHandler` stores the handler reference;
the assignment is recorded at the end of the log. -/
def setHandler (r : AsyncWebServerRequest) (h : Nat) : AsyncWebServerRequest :=
  { r with _handlerLog := r._handlerLog ++ [h] }

/-- The handler currently bound to the request: the last assignment. -/
def boundHandler (r : AsyncWebServerRequest) : Option Nat :=
  r._handlerLog.getLast?

end AsyncWebServerRequest

/-- A rewrite rule (class AsyncWebRewrite).  `id` is the heap identity
of the object; `from_` and `toUrl` are the accessors `from()` and
`toUrl()`; `match_` is the matcher `match(request)`, pure per the spec
("matching is pure and side-effect-free"); `params` is `params()`, the
extracted parameters the rule contributes when it matches. -/
structure AsyncWebRewrite where
  id : Nat
  from_ : String
  toUrl : String
  match_ : AsyncWebServerRequest → Bool
  params : List (String × String)

/-- A registered handler (class AsyncWebHandler).  `id` is the heap
identity; `filter` and `canHandle` are its capability predicates,
modelled from the spec as pure predicates on the request. -/
structure AsyncWebHandler where
  id : Nat
  filter : AsyncWebServerRequest → Bool
  canHandle : AsyncWebServerRequest → Bool

/-- The catch-all (an AsyncCallbackWebHandler).  Modelled from the
spec: class AsyncCallbackWebHandler is not under src/; it delegates to
the three user-supplied callbacks, which `onRequest` / `onUpload` /
`onBody` set and which `NULL` clears.  A callback value is embedded as
an opaque `Nat` token, absence (NULL) as `none`. -/
structure AsyncCallbackWebHandler where
  id : Nat
  onRequest : Option Nat
  onUpload : Option Nat
  onBody : Option Nat
deriving Repr, DecidableEq

/-- The server state: the two registries and the catch-all field.  The
registries are `ThreadSafeList`s of owned entries. -/
structure AsyncWebServer where
  _rewrites : List AsyncWebRewrite
  _handlers : List AsyncWebHandler
  _catchAllHandler : AsyncCallbackWebHandler

namespace AsyncWebServer

/-- The constructor `AsyncWebServer(port)`: both registries start
empty and `_catchAllHandler = new AsyncCallbackWebHandler()`, a fresh
heap object with no callbacks installed. -/
def construct (catchAllId : Nat) : AsyncWebServer :=
  { _rewrites := []
    _handlers := []
    _catchAllHandler := { id := catchAllId, onRequest := none, onUpload := none, onBody := none } }

/-- Embeds `addRewrite`: `_rewrites.emplace_back(rewrite)`. -/
def addRewrite (s : AsyncWebServer) (rewrite : AsyncWebRewrite) : AsyncWebServer :=
  { s with _rewrites := s._rewrites ++ [rewrite] }

/-- The loop of `removeRewrite(from, to)`: erase the first rule whose
`from()` and `toUrl()` equal the arguments; `none` when no rule does. -/
def removeRewriteLoop (frm toU : String) : List AsyncWebRewrite → Option (List AsyncWebRewrite)
  | [] => none
  | r :: rs =>
    if r.from_ = frm ∧ r.toUrl = toU then some rs
    else (removeRewriteLoop frm toU rs).map (fun rest => r :: rest)

/-- Embeds `removeRewrite(const char *from, const char *to)`: returns whether
an entry was erased, together with the resulting server state. -/
def removeRewrite (s : AsyncWebServer) (frm toU : String) : Bool × AsyncWebServer :=
  match removeRewriteLoop frm toU s._rewrites with
  | none => (false, s)
  | some rs => (true, { s with _rewrites := rs })

/-- Embeds `removeRewrite(AsyncWebRewrite *rewrite)`: delegates to the
string overload with the object `from()` and `toUrl()` values. -/
def removeRewritePtr (s : AsyncWebServer) (rewrite : AsyncWebRewrite) : Bool × AsyncWebServer :=
  removeRewrite s rewrite.from_ rewrite.toUrl

/-- Embeds `addHandler`: `_handlers.emplace_back(handler)`. -/
def addHandler (s : AsyncWebServer) (handler : AsyncWebHandler) : AsyncWebServer :=
  { s with _handlers := s._handlers ++ [handler] }

/-- The loop of `removeHandler`: erase the first entry whose stored
pointer (`i->get()`) equals the argument pointer. -/
def removeHandlerLoop (handler : Nat) : List AsyncWebHandler → Option (List AsyncWebHandler)
  | [] => none
  | h :: hs =>
    if h.id = handler then some hs
    else (removeHandlerLoop handler hs).map (fun rest => h :: rest)

/-- Embeds `removeHandler(AsyncWebHandler *handler)`: pointer-identity
removal of the first matching entry. -/
def removeHandler (s : AsyncWebServer) (handler : Nat) : Bool × AsyncWebServer :=
  match removeHandlerLoop handler s._handlers with
  | none => (false, s)
  | some hs => (true, { s with _handlers := hs })

/-- The loop of `_rewriteRequest`: for every rule in order, when
`r->match(request)` holds, do `request->_url = r->toUrl()` then
`request->_addGetParams(r->params())`; the loop never breaks. -/
def rewriteLoop (rules : List AsyncWebRewrite) (request : AsyncWebServerRequest) : AsyncWebServerRequest :=
  rules.foldl
    (fun req r =>
      if r.match_ req then
        AsyncWebServerRequest._addGetParams { req with _url := r.toUrl } r.params
      else req)
    request

/-- Embeds `_rewriteRequest(request)`: iterates `_rewrites` mutating only the
request; the registry itself is only read. -/
def _rewriteRequest (s : AsyncWebServer) (request : AsyncWebServerRequest) : AsyncWebServer × AsyncWebServerRequest :=
  (s, rewriteLoop s._rewrites request)

/-- The loop of `_attachHandler`: the first handler with
`h->filter(request) && h->canHandle(request)`, if any. -/
def attachLoop (request : AsyncWebServerRequest) : List AsyncWebHandler → Option AsyncWebHandler
  | [] => none
  | h :: hs =>
    if h.filter request && h.canHandle request then some h
    else attachLoop request hs

/-- Embeds `_attachHandler(request)`: bind the first matching handler via
`request->setHandler(h.get())` and return; otherwise bind the
catch-all via `request->setHandler(_catchAllHandler)`. -/
def _attachHandler (s : AsyncWebServer) (request : AsyncWebServerRequest) : AsyncWebServerRequest :=
  match attachLoop request s._handlers with
  | some h => request.setHandler h.id
  | none => request.setHandler s._catchAllHandler.id

/-- Embeds `onNotFound(fn)`: `_catchAllHandler->onRequest(fn)`. -/
def onNotFound (s : AsyncWebServer) (fn : Option Nat) : AsyncWebServer :=
  { s with _catchAllHandler := { s._catchAllHandler with onRequest := fn } }

/-- Embeds `onFileUpload(fn)`: `_catchAllHandler->onUpload(fn)`. -/
def onFileUpload (s : AsyncWebServer) (fn : Option Nat) : AsyncWebServer :=
  { s with _catchAllHandler := { s._catchAllHandler with onUpload := fn } }

/-- Embeds `onRequestBody(fn)`: `_catchAllHandler->onBody(fn)`. -/
def onRequestBody (s : AsyncWebServer) (fn : Option Nat) : AsyncWebServer :=
  { s with _catchAllHandler := { s._catchAllHandler with onBody := fn } }

/-- Embeds `reset()`: clear both registries, then clear the three catch-all
callbacks with NULL. -/
def reset (s : AsyncWebServer) : AsyncWebServer :=
  onRequestBody
    (onFileUpload
      (onNotFound { s with _rewrites := [], _handlers := [] } none)
      none)
    none

end AsyncWebServer

/-! ### Sample objects used as concrete witnesses -/

def rwSample1 : AsyncWebRewrite :=
  ⟨1, "/a", "/A", fun _ => true, [("p", "1"), ("q", "7")]⟩

def rwSample2 : AsyncWebRewrite :=
  ⟨2, "/b", "/B", fun _ => true, [("p", "2")]⟩

/-- A rule whose matcher rejects every request. -/
def rwSample3 : AsyncWebRewrite :=
  ⟨3, "/c", "/C", fun _ => false, []⟩

/-- A rule object that is never registered anywhere; it carries the
same `from_` and `toUrl` strings as `rwSample2` but a different heap
identity and a different matcher. -/
def rwGhost : AsyncWebRewrite :=
  ⟨99, "/b", "/B", fun _ => false, [("x", "9")]⟩

def reqSample : AsyncWebServerRequest :=
  ⟨"/start", [("z", "0")], []⟩

def reqSample2 : AsyncWebServerRequest :=
  ⟨"/other", [], []⟩

/-- Filter passes, canHandle fails. -/
def hSample1 : AsyncWebHandler :=
  ⟨1, fun _ => true, fun _ => false⟩

/-- Filter passes, canHandle passes. -/
def hSample2 : AsyncWebHandler :=
  ⟨2, fun _ => true, fun _ => true⟩

def catchAllSample : AsyncCallbackWebHandler :=
  ⟨100, none, none, none⟩

def srvSample : AsyncWebServer :=
  ⟨[rwSample1, rwSample2], [hSample1, hSample2], catchAllSample⟩

/-- A server on which no rewrite matches and no handler can handle. -/
def srvNone : AsyncWebServer :=
  ⟨[rwSample3], [hSample1], catchAllSample⟩

/-! ## Helper lemmas -/

theorem eraseFirstAux_eq_erase {T : Type} [DecidableEq T] (v : T) (xs : List T) :
    ThreadSafeList.eraseFirstAux v xs = xs.erase v := by
  induction xs with
  | nil => rfl
  | cons x xs ih =>
    by_cases h : x = v
    · simp [ThreadSafeList.eraseFirstAux, h, List.erase_cons]
    · simp [ThreadSafeList.eraseFirstAux, h, List.erase_cons, ih]

theorem filter_eraseFirstAux {T : Type} [DecidableEq T] (v : T) (xs : List T) :
    (ThreadSafeList.eraseFirstAux v xs).filter (fun x => !(x = v : Bool)) =
      xs.filter (fun x => !(x = v : Bool)) := by
  induction xs with
  | nil => rfl
  | cons x xs ih =>
    by_cases h : x = v
    · subst h
      simp [ThreadSafeList.eraseFirstAux]
    · simp [ThreadSafeList.eraseFirstAux, h, ih]

theorem length_filter_ne {T : Type} [DecidableEq T] (v : T) (xs : List T) :
    (xs.filter (fun x => !(x = v : Bool))).length = xs.length - xs.count v := by
  induction xs with
  | nil => rfl
  | cons x xs ih =>
    by_cases h : x = v
    · subst h
      have hle : xs.count x ≤ xs.length := List.count_le_length x xs
      simp [List.count_cons, ih]
    · have hle : xs.count v ≤ xs.length := List.count_le_length v xs
      simp only [List.filter_cons, List.count_cons, h, decide_eq_true_eq, if_false,
        Bool.not_eq_true]
      simp [h, List.length_cons, ih]
      omega

theorem count_filter_ne {T : Type} [DecidableEq T] (v : T) (xs : List T) :
    (xs.filter (fun x => !(x = v : Bool))).count v = 0 := by
  rw [List.count_eq_zero]
  intro hmem
  have := List.of_mem_filter hmem
  simp at this

/-- C4: when the collection contains `v`, `erase_first` removes exactly
one element — the earliest one equal to `v` — so the size decreases by
exactly 1, while `erase` removes every element equal to `v`, so the
size decreases by exactly the number of duplicates; elements not equal
to `v` keep their relative order in both cases. -/
theorem erase_first_and_erase_all_spec {T : Type} [DecidableEq T]
    (l : ThreadSafeList T) (v : T) (hmem : v ∈ l.data_) :
    (l.erase_first v).size = l.size - 1 ∧
    (∃ p q, v ∉ p ∧ l.data_ = p ++ v :: q ∧ (l.erase_first v).data_ = p ++ q) ∧
    (l.erase v).data_.count v = 0 ∧
    (l.erase v).size = l.size - l.data_.count v ∧
    (l.erase_first v).data_.filter (fun x => !(x = v : Bool)) =
      l.data_.filter (fun x => !(x = v : Bool)) ∧
    (l.erase v).data_.filter (fun x => !(x = v : Bool)) =
      l.data_.filter (fun x => !(x = v : Bool)) := by
  refine ⟨?_, ?_, ?_, ?_, ?_, ?_⟩
  · simp [ThreadSafeList.erase_first, ThreadSafeList.size, eraseFirstAux_eq_erase,
      List.length_erase_of_mem hmem]
  · obtain ⟨p, q, hnp, heq, herase⟩ := List.exists_erase_eq hmem
    exact ⟨p, q, hnp, heq, by simp [ThreadSafeList.erase_first, eraseFirstAux_eq_erase, herase]⟩
  · simpa [ThreadSafeList.erase] using count_filter_ne v l.data_
  · simpa [ThreadSafeList.erase, ThreadSafeList.size] using length_filter_ne v l.data_
  · simpa [ThreadSafeList.erase_first] using filter_eraseFirstAux v l.data_
  · simp [ThreadSafeList.erase, List.filter_filter]

/-- Witness for C4 at the list `[1, 2, 1, 3]` with `v = 1`. -/
theorem erase_first_and_erase_all_spec_check :
    (1 : Nat) ∈ [1, 2, 1, 3] ∧
    ((⟨[1, 2, 1, 3]⟩ : ThreadSafeList Nat).erase_first 1).size =
      (⟨[1, 2, 1, 3]⟩ : ThreadSafeList Nat).size - 1 ∧
    (∃ p q, (1 : Nat) ∉ p ∧ [1, 2, 1, 3] = p ++ 1 :: q ∧
      ((⟨[1, 2, 1, 3]⟩ : ThreadSafeList Nat).erase_first 1).data_ = p ++ q) ∧
    ((⟨[1, 2, 1, 3]⟩ : ThreadSafeList Nat).erase 1).data_.count 1 = 0 ∧
    ((⟨[1, 2, 1, 3]⟩ : ThreadSafeList Nat).erase 1).size =
      (⟨[1, 2, 1, 3]⟩ : ThreadSafeList Nat).size - [1, 2, 1, 3].count 1 ∧
    ((⟨[1, 2, 1, 3]⟩ : ThreadSafeList Nat).erase_first 1).data_.filter
        (fun x => !(x = 1 : Bool)) =
      [1, 2, 1, 3].filter (fun x => !(x = 1 : Bool)) ∧
    ((⟨[1, 2, 1, 3]⟩ : ThreadSafeList Nat).erase 1).data_.filter
        (fun x => !(x = 1 : Bool)) =
      [1, 2, 1, 3].filter (fun x => !(x = 1 : Bool)) :=
  ⟨by decide, erase_first_and_erase_all_spec ⟨[1, 2, 1, 3]⟩ 1 (by decide)⟩

/-! ### Simulation between `ThreadSafeList` and `RefDeque` -/

theorem ThreadSafeList.eta_of_data {T : Type} (l : ThreadSafeList T) (xs : List T)
    (h : l.data_ = xs) : l = ⟨xs⟩ := by
  cases l
  cases h
  rfl

theorem pushFront_sim {T : Type} (d : RefDeque T) (v : T) :
    (ThreadSafeList.push_front ⟨d.seq⟩ v).data_ = (d.pushFront v).seq := by
  simp [ThreadSafeList.push_front, RefDeque.pushFront, RefDeque.seq]

theorem pushBack_sim {T : Type} (d : RefDeque T) (v : T) :
    (ThreadSafeList.push_back ⟨d.seq⟩ v).data_ = (d.pushBack v).seq := by
  simp [ThreadSafeList.push_back, RefDeque.pushBack, RefDeque.seq]

theorem popFront_sim {T : Type} (d : RefDeque T) :
    (ThreadSafeList.pop_front ⟨d.seq⟩).1 = d.popFront.1 ∧
    (ThreadSafeList.pop_front ⟨d.seq⟩).2.data_ = d.popFront.2.seq := by
  rcases d with ⟨fr, bk⟩
  cases fr with
  | cons x xs =>
    simp [ThreadSafeList.pop_front, RefDeque.popFront, RefDeque.seq]
  | nil =>
    cases hb : bk.reverse with
    | nil =>
      simp [ThreadSafeList.pop_front, RefDeque.popFront, RefDeque.seq, hb]
    | cons x xs =>
      simp [ThreadSafeList.pop_front, RefDeque.popFront, RefDeque.seq, hb]

theorem popBack_sim {T : Type} (d : RefDeque T) :
    (ThreadSafeList.pop_back ⟨d.seq⟩).1 = d.popBack.1 ∧
    (ThreadSafeList.pop_back ⟨d.seq⟩).2.data_ = d.popBack.2.seq := by
  rcases d with ⟨fr, bk⟩
  cases bk with
  | cons x xs =>
    have hassoc : fr ++ (xs.reverse ++ [x]) = (fr ++ xs.reverse) ++ [x] :=
      (List.append_assoc fr xs.reverse [x]).symm
    simp only [ThreadSafeList.pop_back, RefDeque.popBack, RefDeque.seq, List.reverse_cons,
      hassoc, List.getLast?_concat, List.dropLast_concat]
    exact ⟨trivial, trivial⟩
  | nil =>
    cases hl : fr.getLast? with
    | none =>
      have hfr : fr = [] := by
        cases fr with
        | nil => rfl
        | cons y ys => simp [List.getLast?] at hl
      subst hfr
      simp [ThreadSafeList.pop_back, RefDeque.popBack, RefDeque.seq]
    | some x =>
      simp [ThreadSafeList.pop_back, RefDeque.popBack, RefDeque.seq, hl]

theorem runTS_fst_eq_runRef_fst {T : Type} (ops : List (DeqOp T)) :
    ∀ d : RefDeque T, (runTS ops ⟨d.seq⟩).1 = (runRef ops d).1 := by
  induction ops with
  | nil => intro d; rfl
  | cons op ops ih =>
    intro d
    cases op with
    | pushF v =>
      have h := pushFront_sim d v
      calc (runTS (DeqOp.pushF v :: ops) ⟨d.seq⟩).1
          = (runTS ops (ThreadSafeList.push_front ⟨d.seq⟩ v)).1 := rfl
        _ = (runTS ops ⟨(d.pushFront v).seq⟩).1 := by rw [show ThreadSafeList.push_front ⟨d.seq⟩ v = ⟨(d.pushFront v).seq⟩ from congrArg ThreadSafeList.mk h]
        _ = (runRef ops (d.pushFront v)).1 := ih (d.pushFront v)
        _ = (runRef (DeqOp.pushF v :: ops) d).1 := rfl
    | pushB v =>
      have h := pushBack_sim d v
      calc (runTS (DeqOp.pushB v :: ops) ⟨d.seq⟩).1
          = (runTS ops (ThreadSafeList.push_back ⟨d.seq⟩ v)).1 := rfl
        _ = (runTS ops ⟨(d.pushBack v).seq⟩).1 := by rw [show ThreadSafeList.push_back ⟨d.seq⟩ v = ⟨(d.pushBack v).seq⟩ from congrArg ThreadSafeList.mk h]
        _ = (runRef ops (d.pushBack v)).1 := ih (d.pushBack v)
        _ = (runRef (DeqOp.pushB v :: ops) d).1 := rfl
    | popF =>
      obtain ⟨hout, hst⟩ := popFront_sim d
      have hst2 : (ThreadSafeList.pop_front ⟨d.seq⟩).2 = ⟨d.popFront.2.seq⟩ :=
        ThreadSafeList.eta_of_data _ _ hst
      show (ThreadSafeList.pop_front ⟨d.seq⟩).1 :: (runTS ops (ThreadSafeList.pop_front ⟨d.seq⟩).2).1
          = d.popFront.1 :: (runRef ops d.popFront.2).1
      rw [hout, hst2, ih d.popFront.2]
    | popB =>
      obtain ⟨hout, hst⟩ := popBack_sim d
      have hst2 : (ThreadSafeList.pop_back ⟨d.seq⟩).2 = ⟨d.popBack.2.seq⟩ :=
        ThreadSafeList.eta_of_data _ _ hst
      show (ThreadSafeList.pop_back ⟨d.seq⟩).1 :: (runTS ops (ThreadSafeList.pop_back ⟨d.seq⟩).2).1
          = d.popBack.1 :: (runRef ops d.popBack.2).1
      rw [hout, hst2, ih d.popBack.2]

/-- C3: for every sequence of push/pop operations starting from any
state, each pop of the `ThreadSafeList` returns exactly the value (or
absence) a reference double-ended sequence in the corresponding state
returns on the same operation sequence; and `pop_front`, `pop_back`,
`front`, `back` on an empty collection always signal absence without
mutating the collection and never fabricate a value. -/
theorem tsList_refines_refDeque {T : Type} (ops : List (DeqOp T)) (l : ThreadSafeList T)
    (d : RefDeque T) (h : l.data_ = d.seq) :
    (runTS ops l).1 = (runRef ops d).1 ∧
    (∀ l0 : ThreadSafeList T, l0.empty = true →
      l0.pop_front = (none, l0) ∧ l0.pop_back = (none, l0) ∧
      l0.front = none ∧ l0.back = none) := by
  constructor
  · rw [ThreadSafeList.eta_of_data l d.seq h]
    exact runTS_fst_eq_runRef_fst ops d
  · intro l0 he
    obtain ⟨data⟩ := l0
    have hd : data = [] := by
      simpa [ThreadSafeList.empty, List.isEmpty_iff] using he
    subst hd
    exact ⟨rfl, rfl, rfl, rfl⟩

/-- Witness for C3: a concrete mixed push/pop sequence starting from a
singleton state, and the empty-collection clause. -/
theorem tsList_refines_refDeque_check :
    ((⟨[5]⟩ : ThreadSafeList Nat).data_ = (⟨[5], []⟩ : RefDeque Nat).seq) ∧
    ((runTS [DeqOp.pushB 1, DeqOp.pushF 2, DeqOp.popB, DeqOp.popF, DeqOp.popF,
        DeqOp.popF] (⟨[5]⟩ : ThreadSafeList Nat)).1 =
      (runRef [DeqOp.pushB 1, DeqOp.pushF 2, DeqOp.popB, DeqOp.popF, DeqOp.popF,
        DeqOp.popF] (⟨[5], []⟩ : RefDeque Nat)).1 ∧
      (∀ l0 : ThreadSafeList Nat, l0.empty = true →
        l0.pop_front = (none, l0) ∧ l0.pop_back = (none, l0) ∧
        l0.front = none ∧ l0.back = none)) :=
  ⟨by decide,
   tsList_refines_refDeque
     [DeqOp.pushB 1, DeqOp.pushF 2, DeqOp.popB, DeqOp.popF, DeqOp.popF, DeqOp.popF]
     ⟨[5]⟩ ⟨[5], []⟩ (by decide)⟩

/-! ### Parameter-map lemmas -/

theorem find?_map_override (k v : String) (ps : List (String × String)) :
    (ps.map (fun kv => if kv.1 = k then (k, v) else kv)).find? (fun kv => kv.1 = k) =
      (ps.find? (fun kv => kv.1 = k)).map (fun _ => (k, v)) := by
  induction ps with
  | nil => rfl
  | cons kv rest ih =>
    by_cases h : kv.1 = k
    · rw [List.map_cons, if_pos h, List.find?_cons, List.find?_cons]
      simp [h]
    · rw [List.map_cons, if_neg h, List.find?_cons, List.find?_cons]
      simp [h, ih]

theorem find?_map_override_other (k v k' : String) (hne : k' ≠ k)
    (ps : List (String × String)) :
    (ps.map (fun kv => if kv.1 = k then (k, v) else kv)).find? (fun kv => kv.1 = k') =
      ps.find? (fun kv => kv.1 = k') := by
  induction ps with
  | nil => rfl
  | cons kv rest ih =>
    by_cases h : kv.1 = k
    · have h2 : ¬(kv.1 = k') := by
        rw [h]
        exact fun hh => hne hh.symm
      have h3 : ¬(k = k') := fun hh => hne hh.symm
      rw [List.map_cons, if_pos h, List.find?_cons, List.find?_cons]
      simp [h2, h3, ih]
    · by_cases h3 : kv.1 = k'
      · rw [List.map_cons, if_neg h, List.find?_cons, List.find?_cons]
        simp [h3]
      · rw [List.map_cons, if_neg h, List.find?_cons, List.find?_cons]
        simp [h3, ih]

theorem getParam_setParam_same (ps : List (String × String)) (k v : String) :
    AsyncWebServerRequest.getParam (AsyncWebServerRequest.setParam ps k v) k = some v := by
  unfold AsyncWebServerRequest.setParam
  by_cases hany : ps.any (fun kv => kv.1 = k)
  · rw [if_pos hany]
    have hfind : (ps.find? (fun kv => kv.1 = k)).isSome := by
      rw [List.find?_isSome]
      simpa [List.any_eq_true] using hany
    obtain ⟨kv0, hkv0⟩ := Option.isSome_iff_exists.mp hfind
    unfold AsyncWebServerRequest.getParam
    rw [find?_map_override, hkv0]
    rfl
  · rw [if_neg hany]
    have hfind : ps.find? (fun kv => kv.1 = k) = none := by
      rw [List.find?_eq_none]
      intro x hx
      simp only [List.any_eq_true] at hany
      simp only [decide_eq_true_eq]
      exact fun hh => hany ⟨x, hx, by simp [hh]⟩
    unfold AsyncWebServerRequest.getParam
    rw [List.find?_append, hfind]
    simp

theorem getParam_setParam_other (ps : List (String × String)) (k v k' : String)
    (hne : k' ≠ k) :
    AsyncWebServerRequest.getParam (AsyncWebServerRequest.setParam ps k v) k' =
      AsyncWebServerRequest.getParam ps k' := by
  unfold AsyncWebServerRequest.setParam
  by_cases hany : ps.any (fun kv => kv.1 = k)
  · rw [if_pos hany]
    unfold AsyncWebServerRequest.getParam
    rw [find?_map_override_other k v k' hne]
  · rw [if_neg hany]
    have h3 : ¬(k = k') := fun hh => hne hh.symm
    unfold AsyncWebServerRequest.getParam
    rw [List.find?_append]
    have hsing : List.find? (fun kv => kv.1 = k') [(k, v)] = none := by
      simp [List.find?_cons, h3]
    rw [hsing]
    simp

theorem getParam_append (a b : List (String × String)) (k : String) :
    AsyncWebServerRequest.getParam (a ++ b) k =
      (AsyncWebServerRequest.getParam a k).or (AsyncWebServerRequest.getParam b k) := by
  simp only [AsyncWebServerRequest.getParam, List.find?_append]
  cases a.find? (fun kv => kv.1 = k) with
  | none => simp
  | some kv => simp

theorem getParam_foldl_setParam (newPs : List (String × String))
    (ps : List (String × String)) (k : String) :
    AsyncWebServerRequest.getParam
        (newPs.foldl (fun acc kv => AsyncWebServerRequest.setParam acc kv.1 kv.2) ps) k =
      (AsyncWebServerRequest.getParam newPs.reverse k).or
        (AsyncWebServerRequest.getParam ps k) := by
  induction newPs generalizing ps with
  | nil => simp [AsyncWebServerRequest.getParam]
  | cons kv rest ih =>
    obtain ⟨k0, v0⟩ := kv
    rw [List.foldl_cons, ih, List.reverse_cons, getParam_append, Option.or_assoc]
    congr 1
    by_cases hk : k = k0
    · subst hk
      rw [getParam_setParam_same]
      have hone : AsyncWebServerRequest.getParam [(k, v0)] k = some v0 := by
        simp [AsyncWebServerRequest.getParam]
      rw [hone]
      rfl
    · rw [getParam_setParam_other ps k0 v0 k hk]
      have hne2 : ¬(k0 = k) := fun hh => hk hh.symm
      have hone : AsyncWebServerRequest.getParam [(k0, v0)] k = none := by
        simp [AsyncWebServerRequest.getParam, hne2]
      rw [hone]
      rfl

/-- C1: resolving a request against the ordered registry `[r1, r2]`
where both matchers succeed applies both rules in registration order;
the URL and the parameter values that persist are those of the last
matching rule `r2`, while parameter keys set by `r1` and not touched
by `r2` keep the values `r1` set (merge, not replace).  The second
conjunct gives the full merge law: the final value of any key is the
last value `r2` sets for it, else the last value `r1` sets for it,
else the value the request already had. -/
theorem rewrite_last_match_wins (r1 r2 : AsyncWebRewrite) (req : AsyncWebServerRequest)
    (h1 : r1.match_ req = true)
    (h2 : r2.match_
      (AsyncWebServerRequest._addGetParams { req with _url := r1.toUrl } r1.params) = true) :
    (AsyncWebServer.rewriteLoop [r1, r2] req)._url = r2.toUrl ∧
    (∀ k, AsyncWebServerRequest.getParam (AsyncWebServer.rewriteLoop [r1, r2] req)._params k =
      (AsyncWebServerRequest.getParam r2.params.reverse k).or
        ((AsyncWebServerRequest.getParam r1.params.reverse k).or
          (AsyncWebServerRequest.getParam req._params k))) ∧
    (∀ k v, AsyncWebServerRequest.getParam r2.params.reverse k = some v →
      AsyncWebServerRequest.getParam (AsyncWebServer.rewriteLoop [r1, r2] req)._params k =
        some v) ∧
    (∀ k v, AsyncWebServerRequest.getParam r2.params.reverse k = none →
      AsyncWebServerRequest.getParam r1.params.reverse k = some v →
      AsyncWebServerRequest.getParam (AsyncWebServer.rewriteLoop [r1, r2] req)._params k =
        some v) := by
  have hstep : AsyncWebServer.rewriteLoop [r1, r2] req =
      AsyncWebServerRequest._addGetParams
        { AsyncWebServerRequest._addGetParams { req with _url := r1.toUrl } r1.params with
          _url := r2.toUrl } r2.params := by
    simp [AsyncWebServer.rewriteLoop, h1, h2]
  have hparams : ∀ k,
      AsyncWebServerRequest.getParam (AsyncWebServer.rewriteLoop [r1, r2] req)._params k =
        (AsyncWebServerRequest.getParam r2.params.reverse k).or
          ((AsyncWebServerRequest.getParam r1.params.reverse k).or
            (AsyncWebServerRequest.getParam req._params k)) := by
    intro k
    rw [hstep]
    simp only [AsyncWebServerRequest._addGetParams]
    rw [getParam_foldl_setParam, getParam_foldl_setParam]
  refine ⟨?_, hparams, ?_, ?_⟩
  · rw [hstep]
    simp [AsyncWebServerRequest._addGetParams]
  · intro k v hk
    rw [hparams k, hk]
    rfl
  · intro k v hk2 hk1
    rw [hparams k, hk2, hk1]
    rfl

/-- Witness for C1: both sample rules match the sample request; the
result keeps url `/B` and `p = 2` from `rwSample2`, and `q = 7` from
`rwSample1`. -/
theorem rewrite_last_match_wins_check :
    rwSample1.match_ reqSample = true ∧
    rwSample2.match_
      (AsyncWebServerRequest._addGetParams { reqSample with _url := rwSample1.toUrl }
        rwSample1.params) = true ∧
    (AsyncWebServer.rewriteLoop [rwSample1, rwSample2] reqSample)._url = rwSample2.toUrl ∧
    AsyncWebServerRequest.getParam
      (AsyncWebServer.rewriteLoop [rwSample1, rwSample2] reqSample)._params "p" = some "2" ∧
    AsyncWebServerRequest.getParam
      (AsyncWebServer.rewriteLoop [rwSample1, rwSample2] reqSample)._params "q" = some "7" ∧
    AsyncWebServerRequest.getParam
      (AsyncWebServer.rewriteLoop [rwSample1, rwSample2] reqSample)._params "z" = some "0" :=
  ⟨rfl, rfl,
   (rewrite_last_match_wins rwSample1 rwSample2 reqSample rfl rfl).1,
   (rewrite_last_match_wins rwSample1 rwSample2 reqSample rfl rfl).2.2.1 "p" "2" (by decide),
   (rewrite_last_match_wins rwSample1 rwSample2 reqSample rfl rfl).2.2.2 "q" "7"
     (by decide) (by decide),
   by
    rw [(rewrite_last_match_wins rwSample1 rwSample2 reqSample rfl rfl).2.1 "z"]
    decide⟩

/-! ### Rewrite-resolution frame lemmas -/

theorem rewriteLoop_no_match (rs : List AsyncWebRewrite) (req : AsyncWebServerRequest)
    (h : ∀ r ∈ rs, r.match_ req = false) :
    AsyncWebServer.rewriteLoop rs req = req := by
  induction rs with
  | nil => rfl
  | cons r rest ih =>
    have hr : r.match_ req = false := h r (List.mem_cons_self r rest)
    have hstep : AsyncWebServer.rewriteLoop (r :: rest) req =
        AsyncWebServer.rewriteLoop rest req := by
      simp [AsyncWebServer.rewriteLoop, hr]
    rw [hstep]
    exact ih (fun r' hr' => h r' (List.mem_cons_of_mem r hr'))

/-- C10: when no registered rule matches the request, rewrite
resolution leaves the request URL and parameter map exactly unchanged;
and regardless of how many rules match, `_rewriteRequest` never
mutates the rewrite registry itself. -/
theorem rewrite_no_match_frame (s : AsyncWebServer) (req : AsyncWebServerRequest)
    (h : ∀ r ∈ s._rewrites, r.match_ req = false) :
    (s._rewriteRequest req).2._url = req._url ∧
    (s._rewriteRequest req).2._params = req._params ∧
    (∀ req2 : AsyncWebServerRequest, (s._rewriteRequest req2).1 = s) := by
  have hfix : (s._rewriteRequest req).2 = req := rewriteLoop_no_match s._rewrites req h
  exact ⟨by rw [hfix], by rw [hfix], fun req2 => rfl⟩

/-- Witness for C10 at a server whose only rule rejects everything. -/
theorem rewrite_no_match_frame_check :
    (∀ r ∈ srvNone._rewrites, r.match_ reqSample = false) ∧
    (srvNone._rewriteRequest reqSample).2._url = reqSample._url ∧
    (srvNone._rewriteRequest reqSample).2._params = reqSample._params ∧
    (∀ req2 : AsyncWebServerRequest, (srvNone._rewriteRequest req2).1 = srvNone) :=
  ⟨fun r hr => by
    rw [show srvNone._rewrites = [rwSample3] from rfl] at hr
    rw [List.mem_singleton] at hr
    subst hr
    rfl,
   rewrite_no_match_frame srvNone reqSample
     (fun r hr => by
       rw [show srvNone._rewrites = [rwSample3] from rfl] at hr
       rw [List.mem_singleton] at hr
       subst hr
       rfl)⟩

/-! ### Handler-selection lemmas -/

theorem attachLoop_first_match (req : AsyncWebServerRequest) (p : List AsyncWebHandler)
    (m : AsyncWebHandler) (q : List AsyncWebHandler)
    (hm : (m.filter req && m.canHandle req) = true)
    (hp : ∀ h ∈ p, (h.filter req && h.canHandle req) = false) :
    AsyncWebServer.attachLoop req (p ++ m :: q) = some m := by
  induction p with
  | nil => simp [AsyncWebServer.attachLoop, hm]
  | cons h hs ih =>
    have hh : (h.filter req && h.canHandle req) = false := hp h (List.mem_cons_self h hs)
    rw [List.cons_append]
    have hstep : AsyncWebServer.attachLoop req (h :: (hs ++ m :: q)) =
        AsyncWebServer.attachLoop req (hs ++ m :: q) := by
      simp [AsyncWebServer.attachLoop, hh]
    rw [hstep]
    exact ih (fun h' hh' => hp h' (List.mem_cons_of_mem h hh'))

theorem attachLoop_none (req : AsyncWebServerRequest) (hs : List AsyncWebHandler)
    (h : ∀ x ∈ hs, (x.filter req && x.canHandle req) = false) :
    AsyncWebServer.attachLoop req hs = none := by
  induction hs with
  | nil => rfl
  | cons x xs ih =>
    have hx : (x.filter req && x.canHandle req) = false := h x (List.mem_cons_self x xs)
    have hstep : AsyncWebServer.attachLoop req (x :: xs) =
        AsyncWebServer.attachLoop req xs := by
      simp [AsyncWebServer.attachLoop, hx]
    rw [hstep]
    exact ih (fun x' hx' => h x' (List.mem_cons_of_mem x hx'))

theorem attachLoop_mem (req : AsyncWebServerRequest) (hs : List AsyncWebHandler)
    (h : AsyncWebHandler) (hfound : AsyncWebServer.attachLoop req hs = some h) :
    h ∈ hs := by
  induction hs with
  | nil => exact absurd hfound (by simp [AsyncWebServer.attachLoop])
  | cons x xs ih =>
    by_cases hx : (x.filter req && x.canHandle req) = true
    · have : some x = some h := by
        rw [← hfound]
        simp [AsyncWebServer.attachLoop, hx]
      rw [Option.some_inj] at this
      rw [← this]
      exact List.mem_cons_self x xs
    · have hstep : AsyncWebServer.attachLoop req (x :: xs) =
          AsyncWebServer.attachLoop req xs := by
        simp [AsyncWebServer.attachLoop, hx]
      rw [hstep] at hfound
      exact List.mem_cons_of_mem x (ih hfound)

theorem boundHandler_setHandler (req : AsyncWebServerRequest) (h : Nat) :
    (req.setHandler h).boundHandler = some h := by
  simp [AsyncWebServerRequest.setHandler, AsyncWebServerRequest.boundHandler,
    List.getLast?_concat]

/-- C2: handler selection returns the first handler in registration
order whose `filter` and `canHandle` both succeed; when no registered
handler satisfies both, the catch-all is bound, and the catch-all is
the same instance on every such call. -/
theorem handler_first_match_selection (s : AsyncWebServer)
    (req req2 : AsyncWebServerRequest) :
    (∀ p m q, s._handlers = p ++ m :: q →
      (m.filter req && m.canHandle req) = true →
      (∀ h ∈ p, (h.filter req && h.canHandle req) = false) →
      (s._attachHandler req).boundHandler = some m.id) ∧
    ((∀ h ∈ s._handlers, (h.filter req && h.canHandle req) = false) →
      (s._attachHandler req).boundHandler = some s._catchAllHandler.id) ∧
    ((∀ h ∈ s._handlers, (h.filter req && h.canHandle req) = false) →
     (∀ h ∈ s._handlers, (h.filter req2 && h.canHandle req2) = false) →
      (s._attachHandler req).boundHandler = (s._attachHandler req2).boundHandler) := by
  have hsel : ∀ (r : AsyncWebServerRequest),
      (∀ h ∈ s._handlers, (h.filter r && h.canHandle r) = false) →
      (s._attachHandler r).boundHandler = some s._catchAllHandler.id := by
    intro r hnone
    have hloop := attachLoop_none r s._handlers hnone
    simp only [AsyncWebServer._attachHandler, hloop]
    exact boundHandler_setHandler r s._catchAllHandler.id
  refine ⟨?_, hsel req, ?_⟩
  · intro p m q hsplit hm hp
    have hloop : AsyncWebServer.attachLoop req s._handlers = some m := by
      rw [hsplit]
      exact attachLoop_first_match req p m q hm hp
    simp only [AsyncWebServer._attachHandler, hloop]
    exact boundHandler_setHandler req m.id
  · intro h1 h2
    rw [hsel req h1, hsel req2 h2]

/-- Witness for C2: on `srvSample`, `hSample1` passes the filter but
fails `canHandle`, `hSample2` passes both, so selection returns
`hSample2`; on `srvNone` nothing matches and two different requests
both get the one catch-all. -/
theorem handler_first_match_selection_check :
    (srvSample._handlers = [hSample1] ++ hSample2 :: [] ∧
     (hSample2.filter reqSample && hSample2.canHandle reqSample) = true ∧
     (∀ h ∈ [hSample1], (h.filter reqSample && h.canHandle reqSample) = false) ∧
     (srvSample._attachHandler reqSample).boundHandler = some hSample2.id) ∧
    ((∀ h ∈ srvNone._handlers, (h.filter reqSample && h.canHandle reqSample) = false) ∧
     (∀ h ∈ srvNone._handlers, (h.filter reqSample2 && h.canHandle reqSample2) = false) ∧
     (srvNone._attachHandler reqSample).boundHandler =
       some srvNone._catchAllHandler.id ∧
     (srvNone._attachHandler reqSample).boundHandler =
       (srvNone._attachHandler reqSample2).boundHandler) := by
  have hp1 : ∀ h ∈ [hSample1], (h.filter reqSample && h.canHandle reqSample) = false := by
    intro h hh
    rw [List.mem_singleton] at hh
    subst hh
    rfl
  have hn1 : ∀ h ∈ srvNone._handlers, (h.filter reqSample && h.canHandle reqSample) = false := by
    intro h hh
    rw [show srvNone._handlers = [hSample1] from rfl, List.mem_singleton] at hh
    subst hh
    rfl
  have hn2 : ∀ h ∈ srvNone._handlers,
      (h.filter reqSample2 && h.canHandle reqSample2) = false := by
    intro h hh
    rw [show srvNone._handlers = [hSample1] from rfl, List.mem_singleton] at hh
    subst hh
    rfl
  exact ⟨⟨rfl, rfl, hp1,
      (handler_first_match_selection srvSample reqSample reqSample2).1
        [hSample1] hSample2 [] rfl rfl hp1⟩,
    ⟨hn1, hn2,
      (handler_first_match_selection srvNone reqSample reqSample2).2.1 hn1,
      (handler_first_match_selection srvNone reqSample reqSample2).2.2 hn1 hn2⟩⟩

/-- C7: every dispatch binds a handler to the request exactly once —
`_attachHandler` performs exactly one `setHandler` assignment — and
the bound handler is never null: it is the id of a handler present in
the registry or the id of the always-present catch-all. -/
theorem attach_binds_exactly_once (s : AsyncWebServer) (req : AsyncWebServerRequest) :
    ((s._attachHandler req)._handlerLog).length = req._handlerLog.length + 1 ∧
    (∃ hid, (s._attachHandler req).boundHandler = some hid ∧
      ((∃ h, h ∈ s._handlers ∧ hid = h.id) ∨ hid = s._catchAllHandler.id)) := by
  cases hloop : AsyncWebServer.attachLoop req s._handlers with
  | some h =>
    constructor
    · simp [AsyncWebServer._attachHandler, hloop, AsyncWebServerRequest.setHandler]
    · refine ⟨h.id, ?_, Or.inl ⟨h, attachLoop_mem req s._handlers h hloop, rfl⟩⟩
      simp only [AsyncWebServer._attachHandler, hloop]
      exact boundHandler_setHandler req h.id
  | none =>
    constructor
    · simp [AsyncWebServer._attachHandler, hloop, AsyncWebServerRequest.setHandler]
    · refine ⟨s._catchAllHandler.id, ?_, Or.inr rfl⟩
      simp only [AsyncWebServer._attachHandler, hloop]
      exact boundHandler_setHandler req s._catchAllHandler.id

/-- C5: after `reset()` both registries are empty and the three
catch-all callbacks are cleared; a dispatch performed on any request
after reset binds the catch-all handler to the request. -/
theorem reset_clears_registries_and_catchAll (s : AsyncWebServer)
    (req : AsyncWebServerRequest) :
    s.reset._rewrites = [] ∧
    s.reset._handlers = [] ∧
    s.reset._catchAllHandler.onRequest = none ∧
    s.reset._catchAllHandler.onUpload = none ∧
    s.reset._catchAllHandler.onBody = none ∧
    (s.reset._attachHandler req).boundHandler = some s.reset._catchAllHandler.id ∧
    s.reset._catchAllHandler.id = s._catchAllHandler.id := by
  refine ⟨rfl, rfl, rfl, rfl, rfl, ?_, rfl⟩
  have hloop : AsyncWebServer.attachLoop req s.reset._handlers = none := rfl
  simp only [AsyncWebServer._attachHandler, hloop]
  exact boundHandler_setHandler req s.reset._catchAllHandler.id

/-! ### Registry-removal lemmas -/

theorem removeRewriteLoop_none (frm toU : String) (rs : List AsyncWebRewrite)
    (h : ∀ r ∈ rs, ¬(r.from_ = frm ∧ r.toUrl = toU)) :
    AsyncWebServer.removeRewriteLoop frm toU rs = none := by
  induction rs with
  | nil => rfl
  | cons r rest ih =>
    have hr : ¬(r.from_ = frm ∧ r.toUrl = toU) := h r (List.mem_cons_self r rest)
    simp only [AsyncWebServer.removeRewriteLoop, if_neg hr]
    rw [ih (fun r' hr' => h r' (List.mem_cons_of_mem r hr'))]
    rfl

theorem removeRewriteLoop_first (frm toU : String) (p : List AsyncWebRewrite)
    (m : AsyncWebRewrite) (q : List AsyncWebRewrite)
    (hm : m.from_ = frm ∧ m.toUrl = toU)
    (hp : ∀ r ∈ p, ¬(r.from_ = frm ∧ r.toUrl = toU)) :
    AsyncWebServer.removeRewriteLoop frm toU (p ++ m :: q) = some (p ++ q) := by
  induction p with
  | nil => simp [AsyncWebServer.removeRewriteLoop, hm]
  | cons r rest ih =>
    have hr : ¬(r.from_ = frm ∧ r.toUrl = toU) := hp r (List.mem_cons_self r rest)
    rw [List.cons_append]
    simp only [AsyncWebServer.removeRewriteLoop, if_neg hr]
    rw [ih (fun r' hr' => hp r' (List.mem_cons_of_mem r hr'))]
    rfl

theorem removeHandlerLoop_none (handler : Nat) (hs : List AsyncWebHandler)
    (h : ∀ x ∈ hs, x.id ≠ handler) :
    AsyncWebServer.removeHandlerLoop handler hs = none := by
  induction hs with
  | nil => rfl
  | cons x rest ih =>
    have hx : ¬(x.id = handler) := h x (List.mem_cons_self x rest)
    simp only [AsyncWebServer.removeHandlerLoop, if_neg hx]
    rw [ih (fun x' hx' => h x' (List.mem_cons_of_mem x hx'))]
    rfl

theorem removeHandlerLoop_first (handler : Nat) (p : List AsyncWebHandler)
    (m : AsyncWebHandler) (q : List AsyncWebHandler)
    (hm : m.id = handler)
    (hp : ∀ x ∈ p, x.id ≠ handler) :
    AsyncWebServer.removeHandlerLoop handler (p ++ m :: q) = some (p ++ q) := by
  induction p with
  | nil => simp [AsyncWebServer.removeHandlerLoop, hm]
  | cons x rest ih =>
    have hx : ¬(x.id = handler) := hp x (List.mem_cons_self x rest)
    rw [List.cons_append]
    simp only [AsyncWebServer.removeHandlerLoop, if_neg hx]
    rw [ih (fun x' hx' => hp x' (List.mem_cons_of_mem x hx'))]
    rfl

/-- C6: `removeRewrite(from, to)` and `removeHandler(handler)` return
false and leave the registry completely unchanged when no matching
entry exists, and return true after removing exactly the first
matching entry — all other entries unchanged, in their original
relative order — when a match exists.  Both embeddings are total
functions: no exception is raised in either case. -/
theorem remove_absent_false_present_first (s : AsyncWebServer) (frm toU : String)
    (handler : Nat) :
    ((∀ r ∈ s._rewrites, ¬(r.from_ = frm ∧ r.toUrl = toU)) →
      s.removeRewrite frm toU = (false, s)) ∧
    (∀ p m q, s._rewrites = p ++ m :: q → m.from_ = frm → m.toUrl = toU →
      (∀ r ∈ p, ¬(r.from_ = frm ∧ r.toUrl = toU)) →
      s.removeRewrite frm toU = (true, { s with _rewrites := p ++ q })) ∧
    ((∀ h ∈ s._handlers, h.id ≠ handler) → s.removeHandler handler = (false, s)) ∧
    (∀ p m q, s._handlers = p ++ m :: q → m.id = handler →
      (∀ h ∈ p, h.id ≠ handler) →
      s.removeHandler handler = (true, { s with _handlers := p ++ q })) := by
  refine ⟨?_, ?_, ?_, ?_⟩
  · intro h
    simp [AsyncWebServer.removeRewrite, removeRewriteLoop_none frm toU s._rewrites h]
  · intro p m q hsplit hf ht hp
    have hloop : AsyncWebServer.removeRewriteLoop frm toU s._rewrites = some (p ++ q) := by
      rw [hsplit]
      exact removeRewriteLoop_first frm toU p m q ⟨hf, ht⟩ hp
    simp [AsyncWebServer.removeRewrite, hloop]
  · intro h
    simp [AsyncWebServer.removeHandler, removeHandlerLoop_none handler s._handlers h]
  · intro p m q hsplit hm hp
    have hloop : AsyncWebServer.removeHandlerLoop handler s._handlers = some (p ++ q) := by
      rw [hsplit]
      exact removeHandlerLoop_first handler p m q hm hp
    simp [AsyncWebServer.removeHandler, hloop]

/-- Witness for C6: on `srvSample`, removing an absent rewrite or
handler returns false with the state unchanged; removing a present
one returns true and erases exactly the first match. -/
theorem remove_absent_false_present_first_check :
    ((∀ r ∈ srvSample._rewrites, ¬(r.from_ = "/x" ∧ r.toUrl = "/y")) ∧
     srvSample.removeRewrite "/x" "/y" = (false, srvSample)) ∧
    (srvSample._rewrites = [rwSample1] ++ rwSample2 :: [] ∧
     srvSample.removeRewrite "/b" "/B" =
       (true, { srvSample with _rewrites := [rwSample1] ++ [] })) ∧
    ((∀ h ∈ srvSample._handlers, h.id ≠ 77) ∧
     srvSample.removeHandler 77 = (false, srvSample)) ∧
    (srvSample._handlers = [hSample1] ++ hSample2 :: [] ∧
     srvSample.removeHandler 2 =
       (true, { srvSample with _handlers := [hSample1] ++ [] })) := by
  have hrnone : ∀ r ∈ srvSample._rewrites, ¬(r.from_ = "/x" ∧ r.toUrl = "/y") := by
    intro r hrr
    rw [show srvSample._rewrites = [rwSample1, rwSample2] from rfl] at hrr
    rcases List.mem_cons.mp hrr with h1 | h2
    · subst h1
      decide
    · rw [List.mem_singleton] at h2
      subst h2
      decide
  have hrfirst : ∀ r ∈ [rwSample1], ¬(r.from_ = "/b" ∧ r.toUrl = "/B") := by
    intro r hrr
    rw [List.mem_singleton] at hrr
    subst hrr
    decide
  have hhnone : ∀ h ∈ srvSample._handlers, h.id ≠ 77 := by
    intro h hh
    rw [show srvSample._handlers = [hSample1, hSample2] from rfl] at hh
    rcases List.mem_cons.mp hh with h1 | h2
    · subst h1
      decide
    · rw [List.mem_singleton] at h2
      subst h2
      decide
  have hhfirst : ∀ h ∈ [hSample1], h.id ≠ 2 := by
    intro h hh
    rw [List.mem_singleton] at hh
    subst hh
    decide
  exact ⟨⟨hrnone, (remove_absent_false_present_first srvSample "/x" "/y" 77).1 hrnone⟩,
    ⟨rfl, (remove_absent_false_present_first srvSample "/b" "/B" 77).2.1
      [rwSample1] rwSample2 [] rfl rfl rfl hrfirst⟩,
    ⟨hhnone, (remove_absent_false_present_first srvSample "/x" "/y" 77).2.2.1 hhnone⟩,
    ⟨rfl, (remove_absent_false_present_first srvSample "/x" "/y" 2).2.2.2
      [hSample1] hSample2 [] rfl rfl hhfirst⟩⟩

/-- C8: the catch-all handler is created at server construction as a
separate field — the removable handler collection starts empty — and
whenever no registered handler shares its heap identity (which holds
by construction, since the catch-all is a fresh allocation never put
into the collection), `removeHandler` called with the catch-all
pointer returns false, leaving the registry and the catch-all in
place. -/
theorem catchAll_outside_removable_registry (s : AsyncWebServer) (cid : Nat)
    (hinv : ∀ h ∈ s._handlers, h.id ≠ s._catchAllHandler.id) :
    s.removeHandler s._catchAllHandler.id = (false, s) ∧
    (s.removeHandler s._catchAllHandler.id).2._catchAllHandler = s._catchAllHandler ∧
    (AsyncWebServer.construct cid)._handlers = [] ∧
    (AsyncWebServer.construct cid)._rewrites = [] ∧
    (AsyncWebServer.construct cid)._catchAllHandler.id = cid := by
  have hnone := removeHandlerLoop_none s._catchAllHandler.id s._handlers hinv
  have hrem : s.removeHandler s._catchAllHandler.id = (false, s) := by
    simp [AsyncWebServer.removeHandler, hnone]
  exact ⟨hrem, by rw [hrem], rfl, rfl, rfl⟩

/-- Witness for C8 on `srvSample`, whose handlers have ids 1 and 2
while the catch-all has id 100. -/
theorem catchAll_outside_removable_registry_check :
    (∀ h ∈ srvSample._handlers, h.id ≠ srvSample._catchAllHandler.id) ∧
    srvSample.removeHandler srvSample._catchAllHandler.id = (false, srvSample) ∧
    (srvSample.removeHandler srvSample._catchAllHandler.id).2._catchAllHandler =
      srvSample._catchAllHandler ∧
    (AsyncWebServer.construct 100)._handlers = [] ∧
    (AsyncWebServer.construct 100)._rewrites = [] ∧
    (AsyncWebServer.construct 100)._catchAllHandler.id = 100 := by
  have hinv : ∀ h ∈ srvSample._handlers, h.id ≠ srvSample._catchAllHandler.id := by
    intro h hh
    rw [show srvSample._handlers = [hSample1, hSample2] from rfl] at hh
    rcases List.mem_cons.mp hh with h1 | h2
    · subst h1
      decide
    · rw [List.mem_singleton] at h2
      subst h2
      decide
  exact ⟨hinv, (catchAll_outside_removable_registry srvSample 100 hinv).1,
    (catchAll_outside_removable_registry srvSample 100 hinv).2.1,
    rfl, rfl, rfl⟩

/-- C9: removing a rewrite by object pointer removes by value, not
identity: `removeRewrite(rewrite)` removes the first registered rule
whose `from` pattern and `to` URL strings both equal those of the
given object and returns true whenever such an equal rule exists —
with no requirement that the given object itself is registered, so
the removed rule may be a different object than the one passed in. -/
theorem removeRewritePtr_removes_by_value (s : AsyncWebServer) (rw : AsyncWebRewrite)
    (p : List AsyncWebRewrite) (m : AsyncWebRewrite) (q : List AsyncWebRewrite)
    (hsplit : s._rewrites = p ++ m :: q)
    (hf : m.from_ = rw.from_) (ht : m.toUrl = rw.toUrl)
    (hp : ∀ r ∈ p, ¬(r.from_ = rw.from_ ∧ r.toUrl = rw.toUrl)) :
    s.removeRewritePtr rw = (true, { s with _rewrites := p ++ q }) := by
  have hloop : AsyncWebServer.removeRewriteLoop rw.from_ rw.toUrl s._rewrites =
      some (p ++ q) := by
    rw [hsplit]
    exact removeRewriteLoop_first rw.from_ rw.toUrl p m q ⟨hf, ht⟩ hp
  simp [AsyncWebServer.removeRewritePtr, AsyncWebServer.removeRewrite, hloop]

/-- Witness for C9: `rwGhost` has the strings of `rwSample2` but heap
identity 99, which no registered rule carries — so the ghost object
was never registered — yet removal succeeds and erases `rwSample2`. -/
theorem removeRewritePtr_removes_by_value_check :
    rwGhost.id = 99 ∧
    (∀ r ∈ srvSample._rewrites, r.id ≠ rwGhost.id) ∧
    rwSample2.id ≠ rwGhost.id ∧
    srvSample._rewrites = [rwSample1] ++ rwSample2 :: [] ∧
    rwSample2.from_ = rwGhost.from_ ∧
    rwSample2.toUrl = rwGhost.toUrl ∧
    (∀ r ∈ [rwSample1], ¬(r.from_ = rwGhost.from_ ∧ r.toUrl = rwGhost.toUrl)) ∧
    srvSample.removeRewritePtr rwGhost =
      (true, { srvSample with _rewrites := [rwSample1] ++ [] }) := by
  have hp : ∀ r ∈ [rwSample1], ¬(r.from_ = rwGhost.from_ ∧ r.toUrl = rwGhost.toUrl) := by
    intro r hrr
    rw [List.mem_singleton] at hrr
    subst hrr
    decide
  have hids : ∀ r ∈ srvSample._rewrites, r.id ≠ rwGhost.id := by
    intro r hrr
    rw [show srvSample._rewrites = [rwSample1, rwSample2] from rfl] at hrr
    rcases List.mem_cons.mp hrr with h1 | h2
    · subst h1
      decide
    · rw [List.mem_singleton] at h2
      subst h2
      decide
  exact ⟨rfl, hids, by decide, rfl, rfl, rfl, hp,
    removeRewritePtr_removes_by_value srvSample rwGhost [rwSample1] rwSample2 []
      rfl rfl rfl hp⟩

end ESPAsync
